import Mathlib

/-!
Verification of the ingestion-normalization-and-idempotent-upsert pipeline of
the Tennis-Betting-Algorithm repository (src/load_tml.py, src/load_sackmann.py).

The Python/pandas/SQL code is shallowly embedded as executable Lean
definitions: data frames become lists of rows, cells become `Option String`
(with `none` for NaN/NULL), the persistent target tables become lists, and
the transactional bulk appliers become pure functions returning the
post-transaction table state together with a status.
-/

namespace TennisETL

/-! ## Cell-level parsing primitives

These model the pandas coercions used by both loaders:
`pd.to_numeric(..., errors="coerce").astype("Int64")` and
`pd.to_datetime(..., format="%Y%m%d", errors="coerce")`, plus the flexible
(dateutil-style) fallback parse used by `read_file` in load_tml.py. -/

/-- Decimal digits of a character list, most significant first. -/
def digitsToNat (cs : List Char) : Nat :=
  cs.foldl (fun n c => n * 10 + (c.toNat - 48)) 0

/-- Whitespace as stripped by `str.strip()`. -/
def isSpaceChar (c : Char) : Bool :=
  c = ' ' || c = '\t' || c = '\n' || c = '\r'

/-- Leading and trailing whitespace removed. -/
def trimChars (cs : List Char) : List Char :=
  ((cs.dropWhile isSpaceChar).reverse.dropWhile isSpaceChar).reverse

/-- `str.strip()`. -/
def pyStrip (s : String) : String := String.mk (trimChars s.toList)

/-- `str.lower()`. -/
def pyLower (s : String) : String := String.mk (s.toList.map Char.toLower)

/-- `str.split(sep)`: split on a separator character, keeping empty parts. -/
def splitOnChar (sep : Char) (cs : List Char) : List (List Char) :=
  cs.foldr (fun c acc =>
    match acc with
    | [] => if c = sep then [[], []] else [[c]]
    | a :: rest => if c = sep then [] :: a :: rest else (c :: a) :: rest) [[]]

/-- Models `pd.to_numeric(cell, errors="coerce").astype("Int64")` on a single
raw text cell: a missing cell stays missing; text that is an optionally
signed decimal integer (with surrounding whitespace tolerated) parses to that
integer; any other text coerces to missing.  Non-integral numeric text is
treated as unparsable in this model. -/
def parseIntOpt (raw : Option String) : Option Int :=
  match raw with
  | none => none
  | some s =>
    let cs := trimChars s.toList
    match cs with
    | [] => none
    | c :: rest =>
      if c = '-' then
        if rest ≠ [] && rest.all Char.isDigit then some (-(digitsToNat rest : Int)) else none
      else if c = '+' then
        if rest ≠ [] && rest.all Char.isDigit then some (digitsToNat rest : Int) else none
      else
        if cs.all Char.isDigit then some (digitsToNat cs : Int) else none

/-- Gregorian leap year. -/
def isLeap (y : Nat) : Bool :=
  (y % 4 = 0 && y % 100 ≠ 0) || y % 400 = 0

/-- Number of days in a month, as validated by the datetime library. -/
def daysInMonth (y m : Nat) : Nat :=
  if m = 2 then (if isLeap y then 29 else 28)
  else if m = 4 || m = 6 || m = 9 || m = 11 then 30
  else 31

/-- Dates are encoded as the natural number `y * 10000 + m * 100 + d`. -/
def mkDate (y m d : Nat) : Option Nat :=
  if 1 ≤ m && m ≤ 12 && 1 ≤ d && d ≤ daysInMonth y m then
    some (y * 10000 + m * 100 + d)
  else none

/-- Models `pd.to_datetime(cell, format="%Y%m%d", errors="coerce")` on one raw
cell: exactly eight digit characters forming a valid calendar date, otherwise
missing. -/
def parseYYYYMMDD (raw : Option String) : Option Nat :=
  match raw with
  | none => none
  | some s =>
    let cs := s.toList
    if cs.length = 8 && cs.all Char.isDigit then
      mkDate (digitsToNat (cs.take 4)) (digitsToNat ((cs.drop 4).take 2))
        (digitsToNat (cs.drop 6))
    else none

/-- Year-month-day fields given as digit strings, with a four-digit year and
one- or two-digit month and day, validated as a calendar date. -/
def parseIsoParts (parts : List (List Char)) : Option Nat :=
  match parts with
  | [ys, ms, ds] =>
    if ys.length = 4 && ys.all Char.isDigit &&
        1 ≤ ms.length && ms.length ≤ 2 && ms.all Char.isDigit &&
        1 ≤ ds.length && ds.length ≤ 2 && ds.all Char.isDigit then
      mkDate (digitsToNat ys) (digitsToNat ms) (digitsToNat ds)
    else none
  | _ => none

/-- Models the flexible general date parse `pd.to_datetime(cell,
errors="coerce")` (a dateutil-style parser) on the formats exercised by this
pipeline: the compact `YYYYMMDD` form and dash- or slash-separated
year-month-day forms.  Other textual date formats are outside the model and
coerce to missing. -/
def parseFlexibleDate (raw : Option String) : Option Nat :=
  match raw with
  | none => none
  | some s =>
    let t := trimChars s.toList
    match parseYYYYMMDD (some (String.mk t)) with
    | some d => some d
    | none =>
      match parseIsoParts (splitOnChar '-' t) with
      | some d => some d
      | none => parseIsoParts (splitOnChar '/' t)

/-- load_tml.py, read_file, the `tourney_date` coercion: first try the
compact `%Y%m%d` parse; on the rows where that produced missing, retry with
the flexible parse; keep missing only if both fail. -/
def coerce_date_tml (raw : Option String) : Option Nat :=
  match parseYYYYMMDD raw with
  | some d => some d
  | none => parseFlexibleDate raw

/-- load_sackmann.py date coercion (load_players line 123, load_rankings line
152, load_matches line 210): a single strict `%Y%m%d` parse with
`errors="coerce"` and no fallback. -/
def coerce_date_sackmann (raw : Option String) : Option Nat :=
  parseYYYYMMDD raw

/-! ## Target tables and the natural-key upsert

A persisted target table is modelled as an ordered relation of
(natural key, non-key fields) rows.  The SQL merge
`INSERT ... SELECT ... FROM tmp ON CONFLICT (key) DO UPDATE SET` used by
`upsert_matches` and `load_players_ref` is modelled row by row: a staged row
whose key is already present overwrites all non-key fields of the matching
table row in place, and a staged row with a fresh key is inserted. -/

/-- Outcome of one transactional apply: returned without touching storage
(`skipped`), committed, or rolled back by a storage error (`failed`). -/
inductive ApplyStatus where
  | skipped
  | committed
  | failed
deriving DecidableEq

/-- A target table keyed by natural key `K` with non-key fields `V`. -/
abbrev Table (K V : Type) : Type := List (K × V)

section Upsert

variable {K V : Type} [DecidableEq K]

/-- The keys of a table or staged batch, in row order. -/
def keysOf (t : List (K × V)) : List K := t.map Prod.fst

/-- `SELECT` of the non-key fields of the row with key `k` (first match). -/
def lookupKey : Table K V → K → Option V
  | [], _ => none
  | e :: t, k => if e.1 = k then some e.2 else lookupKey t k

/-- Overwrite all non-key fields of every row whose key is `k`
(the `DO UPDATE SET field = EXCLUDED.field` arm of the merge). -/
def overwriteKey (t : Table K V) (k : K) (v : V) : Table K V :=
  t.map (fun x => if x.1 = k then (x.1, v) else x)

/-- Merge a single staged row into the table by natural key:
overwrite-all-non-key-fields if the key is present, insert if absent. -/
def upsertRow (t : Table K V) (e : K × V) : Table K V :=
  if t.any (fun x => x.1 = e.1) then overwriteKey t e.1 e.2
  else t ++ [e]

/-- Merge a whole staged batch into the table, row by row in batch order. -/
def upsertBatch (t : Table K V) (b : List (K × V)) : Table K V :=
  b.foldl upsertRow t

/-- All rows of the table with key `k` carry fields `v`. -/
def AllKeyVal (t : Table K V) (k : K) (v : V) : Prop :=
  ∀ e ∈ t, e.1 = k → e.2 = v

end Upsert

/-! ## Match rows and the two match appliers

`load_tml.py` merges TML match files into `atp.matches` with
`INSERT ... ON CONFLICT (tourney_id, tourney_date, match_num) DO UPDATE`,
after dropping rows whose natural key has a NULL component.
`load_sackmann.py` bulk-appends Sackmann match files into the same table with
a plain `COPY` (`copy_df`) and no key filtering. -/

/-- A typed cell of a coerced match row: integer, date or text, each possibly
missing. -/
inductive MVal where
  | vInt : Option Int → MVal
  | vDate : Option Nat → MVal
  | vStr : Option String → MVal
deriving DecidableEq

/-- A coerced match row: the three natural-key fields
(`tourney_id`, `tourney_date`, `match_num`), possibly missing, and the
remaining non-key cells in canonical column order. -/
structure MatchRow where
  tourney_id : Option String
  tourney_date : Option Nat
  match_num : Option Int
  rest : List MVal
deriving DecidableEq

/-- The natural key of `atp.matches`. -/
abbrev MatchKey : Type := String × Nat × Int

/-- The natural key of a match row, if every component is present. -/
def matchRowKey (r : MatchRow) : Option MatchKey :=
  match r.tourney_id, r.tourney_date, r.match_num with
  | some a, some d, some m => some (a, d, m)
  | _, _, _ => none

/-- `df["tourney_id"].notna() & df["tourney_date"].notna() & df["match_num"].notna()`
(load_tml.py line 97). -/
def matchKeyComplete (r : MatchRow) : Bool :=
  r.tourney_id.isSome && r.tourney_date.isSome && r.match_num.isSome

/-- A key-complete match row as a staged (key, non-key fields) entry. -/
def matchEntry (r : MatchRow) : Option (MatchKey × List MVal) :=
  match r.tourney_id, r.tourney_date, r.match_num with
  | some a, some d, some m => some ((a, d, m), r.rest)
  | _, _, _ => none

/-- The staged batch of `upsert_matches`: the key-complete rows of the input
frame, in order, as (key, fields) entries (load_tml.py lines 97-105). -/
def stagedMatches (df : List MatchRow) : List (MatchKey × List MVal) :=
  df.filterMap matchEntry

/-- load_tml.py, `upsert_matches`: an empty frame returns at once with no
storage operation; otherwise the rows with NULL key components are dropped,
the rest are staged into a scratch table and merged into `atp.matches` by
natural key inside one transaction.  Staged duplicate keys make the merge
statement fail (`ON CONFLICT DO UPDATE` cannot affect one row twice), rolling
the whole batch back. -/
def upsert_matches (t : Table MatchKey (List MVal)) (df : List MatchRow) :
    Table MatchKey (List MVal) × ApplyStatus :=
  if df.isEmpty then (t, .skipped)
  else
    let staged := stagedMatches df
    if (keysOf staged).Nodup then (upsertBatch t staged, .committed)
    else (t, .failed)

/-- load_sackmann.py, `copy_df` (lines 44-62): the storage bulk-copy
primitive.  An empty frame returns immediately, issuing no storage operation;
otherwise the rows are appended inside one transaction, which commits when
the target table's constraints accept the combined contents and otherwise
rolls back, leaving the table unchanged.  The constraint check belongs to the
target table and is passed in as `constraintOk`. -/
def copy_df {R : Type} (constraintOk : List R → List R → Bool)
    (t : List R) (b : List R) : List R × ApplyStatus :=
  if b.isEmpty then (t, .skipped)
  else if constraintOk t b then (t ++ b, .committed)
  else (t, .failed)

/-- Modelled from the spec: the storage schema (schema.sql) is not under
src/, but `upsert_matches` relies on a unique index on
`atp.matches (tourney_id, tourney_date, match_num)`, and the spec states
that within a persisted table the natural key is unique and that an apply
failure aborts the whole batch atomically.  The commit condition for a bulk
copy into `atp.matches`: no two rows of the combined table may share a fully
present natural key; NULL key components never collide. -/
def matchesUniqueOk (t : List MatchRow) (b : List MatchRow) : Bool :=
  ((t ++ b).filterMap matchRowKey).Nodup

/-- `copy_df` aimed at the `atp.matches` table, as invoked by
`load_matches` (load_sackmann.py line 219). -/
def copy_df_matches (t : List MatchRow) (b : List MatchRow) :
    List MatchRow × ApplyStatus :=
  copy_df matchesUniqueOk t b

/-! ## The Sackmann match loader (load_sackmann.py, load_matches)

One yearly file: the frame is read with inferred types, absent canonical
columns are created as missing, `tourney_date` is coerced with the strict
compact parse, the integer columns are coerced with
`pd.to_numeric(errors="coerce").astype("Int64")`, the frame is restricted to
the canonical column order, and the whole frame — with no natural-key
filtering — is handed to `copy_df`. -/

/-- A raw Sackmann match row, split by how load_matches treats the columns:
the three natural-key cells, the remaining `MATCH_INT_COLS` cells, and the
untouched text cells, each in canonical column order. -/
structure SrcMatchRow where
  tourney_id : Option String
  tourney_date : Option String
  match_num : Option String
  intCells : List (Option String)
  strCells : List (Option String)
deriving DecidableEq

/-- Coercion of one raw Sackmann match row (load_sackmann.py lines 204-214):
compact date parse for `tourney_date`, integer coercion for `match_num` and
the other integer columns, text kept as is.  No row is dropped. -/
def load_matches_row (r : SrcMatchRow) : MatchRow :=
  { tourney_id := r.tourney_id
    tourney_date := coerce_date_sackmann r.tourney_date
    match_num := parseIntOpt r.match_num
    rest := r.intCells.map (fun c => MVal.vInt (parseIntOpt c)) ++
      r.strCells.map MVal.vStr }

/-- The batch handed to `copy_df` by `load_matches` for one yearly file:
every source row, coerced, with no key filter. -/
def load_matches_batch (rows : List SrcMatchRow) : List MatchRow :=
  rows.map load_matches_row

/-- `load_matches` applied to one yearly file against the current
`atp.matches` contents. -/
def load_matches_apply (t : List MatchRow) (rows : List SrcMatchRow) :
    List MatchRow × ApplyStatus :=
  copy_df_matches t (load_matches_batch rows)

/-! ## The Deduplicator

`load_rankings` (load_sackmann.py lines 174-178) sorts by the natural key —
a multi-column `sort_values`, which pandas performs with a stable
lexicographic sort — and then keeps the last occurrence of each key
(`drop_duplicates(keep="last")`), preserving the order of the survivors.
`load_players_ref` (load_tml.py line 164) instead keeps the first occurrence
of each key (`drop_duplicates(subset=["player_id"], keep="first")`) without
sorting. -/

section Dedup

variable {R κ : Type} [DecidableEq κ]

/-- `drop_duplicates(keep="last")`: a row survives exactly when no later row
has the same key; survivor order is preserved. -/
def keepLastBy (key : R → κ) : List R → List R
  | [] => []
  | r :: rs =>
    if rs.any (fun s => key s = key r) then keepLastBy key rs
    else r :: keepLastBy key rs

/-- `drop_duplicates(keep="first")`: a row survives exactly when its key was
not already seen; survivor order is preserved. -/
def keepFirstBy (key : R → κ) : List R → List κ → List R
  | [], _ => []
  | r :: rs, seen =>
    if seen.contains (key r) then keepFirstBy key rs seen
    else r :: keepFirstBy key rs (key r :: seen)

/-- Insert into a run already in key order, before the first element that is
not strictly smaller — so after every element with an equal key. -/
def orderedInsertBy (le : R → R → Bool) (x : R) : List R → List R
  | [] => [x]
  | y :: l => if le x y then x :: y :: l else y :: orderedInsertBy le x l

/-- A stable sort by key: models the stable lexicographic sort behind a
multi-column `sort_values`.  Stability is what matters below: rows with
equal keys keep their original relative order, which an insertion sort with
a non-strict comparison guarantees. -/
def insSortBy (le : R → R → Bool) : List R → List R
  | [] => []
  | a :: l => orderedInsertBy le a (insSortBy le l)

end Dedup

/-! ## The rankings loader (load_sackmann.py, load_rankings) -/

/-- A ranking row after coercion and the missing-key drop: the natural key
(`ranking_date`, `player_id`) is fully present, `rank` and `points` may be
missing. -/
structure RankRow where
  date : Nat
  pid : Int
  rank : Option Int
  points : Option Int
deriving DecidableEq

/-- The natural key of `atp.rankings` as loaded: (ranking_date, player_id). -/
def rankKey (r : RankRow) : Nat × Int := (r.date, r.pid)

/-- Key order used by `sort_values(["ranking_date", "player_id"])`:
lexicographic on (date, player id), non-strict. -/
def rankKeyLe (a b : RankRow) : Bool :=
  a.date < b.date || (a.date = b.date && a.pid ≤ b.pid)

/-- Cell `i` of a raw positional row. -/
def cellAt (r : List (Option String)) (i : Nat) : Option String :=
  r.getD i none

/-- load_sackmann.py lines 145-172 for one rankings file read with the fixed
positional layout `[ranking_date, ranking, player_id, ranking_points]`:
coerce the date and the integer columns cell-wise, then
`dropna(subset=["ranking_date", "player_id"])` — rows whose natural key has
a missing component are removed, the others are kept.  The optional
`min_date` window is not modelled (no claim concerns it). -/
def rankings_clean_row (r : List (Option String)) : Option RankRow :=
  match parseYYYYMMDD (cellAt r 0), parseIntOpt (cellAt r 2) with
  | some d, some p =>
    some ⟨d, p, parseIntOpt (cellAt r 1), parseIntOpt (cellAt r 3)⟩
  | _, _ => none

/-- The cleaned rankings batch: every row whose natural key coerced, in
order. -/
def rankings_clean (rows : List (List (Option String))) : List RankRow :=
  rows.filterMap rankings_clean_row

/-- load_sackmann.py lines 174-178: sort by the natural key with a stable
sort, then keep the last occurrence of each key. -/
def rankings_dedupe (l : List RankRow) : List RankRow :=
  keepLastBy rankKey (insSortBy rankKeyLe l)

/-- The rankings batch handed to `copy_df`: cleaned, then deduplicated. -/
def load_rankings_batch (rows : List (List (Option String))) : List RankRow :=
  rankings_dedupe (rankings_clean rows)

/-! ## The players-reference loader (load_tml.py, load_players_ref) -/

/-- A raw row of the TML `ATP_Database.csv`, after the required-column check
(the eight named columns are present by construction here). -/
structure PRefSrc where
  id : Option String
  player : Option String
  atpname : Option String
  ioc : Option String
  hand : Option String
  backhand : Option String
  height : Option String
  birthdate : Option String
deriving DecidableEq

/-- `series.astype(str).str.strip()` on one cell: a missing cell becomes the
literal string of the float NaN, "nan", before stripping — so the later
`notna()` filter on this column never drops anything. -/
def strAstype (c : Option String) : String :=
  pyStrip (match c with
    | some s => s
    | none => "nan")

/-- A coerced players-reference record (load_tml.py lines 135-144). -/
structure PRefRec where
  player_id : String
  player : String
  atpname : String
  ioc : String
  hand : String
  backhand : String
  height_cm : Option Int
  birthdate : Option Nat
deriving DecidableEq

/-- Build one players-reference record from a raw row
(load_tml.py lines 135-144). -/
def players_ref_row (r : PRefSrc) : PRefRec :=
  { player_id := strAstype r.id
    player := strAstype r.player
    atpname := strAstype r.atpname
    ioc := strAstype r.ioc
    hand := strAstype r.hand
    backhand := strAstype r.backhand
    height_cm := parseIntOpt r.height
    birthdate := parseYYYYMMDD r.birthdate }

/-- load_tml.py lines 135-164: build the records, apply the defensive
cleanup — the `notna()` filter is a no-op after `astype(str)` (a missing id
became the non-empty string "nan"), the length filter drops empty ids, and
`drop_duplicates(subset=["player_id"], keep="first")` keeps the first
occurrence of each player id. -/
def players_ref_batch (src : List PRefSrc) : List PRefRec :=
  keepFirstBy (fun r => r.player_id)
    ((src.map players_ref_row).filter (fun r => r.player_id.length > 0)) []

/-- The non-key fields of the players-reference table. -/
abbrev PRefFields : Type :=
  String × String × String × String × String × Option Int × Option Nat

/-- The staged (key, non-key fields) entries of the players-reference merge:
keyed by `player_id`. -/
def players_ref_entries (src : List PRefSrc) : List (String × PRefFields) :=
  (players_ref_batch src).map (fun r =>
    (r.player_id, (r.player, r.atpname, r.ioc, r.hand, r.backhand, r.height_cm,
      r.birthdate)))

/-- load_tml.py lines 166-190: stage the cleaned batch into an unconstrained
temp table and merge it into `atp.players_ref` with
`INSERT ... ON CONFLICT (player_id) DO UPDATE SET` over all non-key fields,
in one transaction.  Duplicate staged keys would make the merge fail and
roll back, which the preceding `drop_duplicates` exists to prevent. -/
def load_players_ref_apply (t : Table String PRefFields)
    (src : List PRefSrc) : Table String PRefFields × ApplyStatus :=
  let out := players_ref_entries src
  if (keysOf out).Nodup then (upsertBatch t out, .committed)
  else (t, .failed)


/-! ## The players loader (load_sackmann.py, load_players)

Header detection peeks the first line: if any of a small set of sentinel
column names appears among its fields the file is read as headered,
otherwise the fixed legacy positional order is assumed.  Column names are
then matched after stripping and lowercasing, through an ordered synonym
list per canonical field. -/

/-- The sentinel column names of the header heuristic
(load_sackmann.py lines 79-82). -/
def playersSentinels : List String :=
  ["player_id", "first_name", "name_first", "last_name", "name_last"]

/-- The fixed positional column order of the header-less legacy layout
(load_sackmann.py line 88). -/
def playersPositionalCols : List String :=
  ["player_id", "first_name", "last_name", "hand", "birth_date",
    "country_code", "height"]

/-- The header line of a headered file equivalent to the legacy layout,
using the registered synonyms `name_first`/`name_last` for the name
columns. -/
def legacySynHeader : List (Option String) :=
  [some "player_id", some "name_first", some "name_last", some "hand",
    some "birth_date", some "country_code", some "height"]

/-- Header presence: some sentinel name appears among the fields of the
first line of the file (load_sackmann.py lines 78-82). -/
def players_has_header (file : List (List (Option String))) : Bool :=
  match file with
  | [] => false
  | r :: _ => playersSentinels.any (fun s => r.contains (some s))

/-- A data frame: column names plus data rows. -/
structure PFrame where
  cols : List String
  rows : List (List (Option String))
deriving DecidableEq

/-- Read the players file: with a detected header the first line names the
columns and the rest are data; otherwise every line is data under the fixed
positional columns (load_sackmann.py lines 84-89). -/
def players_frame (file : List (List (Option String))) : PFrame :=
  if players_has_header file then
    { cols := (file.headD []).map (fun c => c.getD ""), rows := file.tail }
  else
    { cols := playersPositionalCols, rows := file }

/-- Column-name normalization `c.strip().lower()`
(load_sackmann.py lines 92-93). -/
def normalizeName (s : String) : String := pyLower (pyStrip s)

/-- The `pick(*cands)` helper (load_sackmann.py lines 96-100): the first
candidate name present among the columns, if any. -/
def pick (cols : List String) (cands : List String) : Option String :=
  cands.find? (fun c => cols.contains c)

/-- `df[name]` for one row: the cell in the position of the named column,
missing if the column was not picked or the row is short. -/
def getColCell (cols : List String) (row : List (Option String))
    (c : Option String) : Option String :=
  match c with
  | none => none
  | some name =>
    match cols.findIdx? (fun c2 => c2 = name) with
    | none => none
    | some i => cellAt row i

/-- A canonical player record (load_sackmann.py lines 118-126). -/
structure PlayerRec where
  player_id : Option Int
  name_last : Option String
  name_first : Option String
  hand : Option String
  dob : Option Nat
  ioc : Option String
  height_cm : Option Int
deriving DecidableEq

/-- The ordered synonym lists of the minimum-required player columns
(load_sackmann.py lines 102-112); `height` is optional and so not here. -/
def players_required_cands : List (List String) :=
  [["player_id"], ["first_name", "name_first"], ["last_name", "name_last"],
    ["hand"], ["birth_date", "dob"], ["country_code", "ioc"]]

/-- load_sackmann.py, `load_players`, normalization stage (lines 77-132):
header detection, column-name normalization, synonym resolution, the
required-column check (raising `ValueError` for the whole file when a
required column is unresolvable), construction of the records in schema
order, and the drop of rows whose `player_id` failed integer coercion. -/
def load_players_normalize (file : List (List (Option String))) :
    Except String (List PlayerRec) :=
  let f := players_frame file
  let cols := f.cols.map normalizeName
  let cpid := pick cols ["player_id"]
  let cfirst := pick cols ["first_name", "name_first"]
  let clast := pick cols ["last_name", "name_last"]
  let chand := pick cols ["hand"]
  let cbirth := pick cols ["birth_date", "dob"]
  let ccountry := pick cols ["country_code", "ioc"]
  let cheight := pick cols ["height_cm", "height"]
  if cpid.isNone || cfirst.isNone || clast.isNone || chand.isNone ||
      cbirth.isNone || ccountry.isNone then
    Except.error "Players CSV is missing required columns"
  else
    Except.ok ((f.rows.map (fun r =>
      ({ player_id := parseIntOpt (getColCell cols r cpid)
         name_last := getColCell cols r clast
         name_first := getColCell cols r cfirst
         hand := getColCell cols r chand
         dob := coerce_date_sackmann (getColCell cols r cbirth)
         ioc := getColCell cols r ccountry
         height_cm := parseIntOpt (getColCell cols r cheight) } : PlayerRec))).filter
      (fun p => p.player_id.isSome))

/-- Resolvability of the minimum-required player columns: every required
canonical field has some registered synonym among the normalized column
names. -/
def players_required_ok (file : List (List (Option String))) : Bool :=
  players_required_cands.all (fun cands =>
    cands.any (fun c =>
      ((players_frame file).cols.map normalizeName).contains c))

/-! ## The TML match-file reader (load_tml.py, read_file)

`read_file` canonicalizes header names by stripping, lowercasing and
collapsing every run of non-alphanumeric characters to one underscore, then
requires every canonical TML column to be resolvable; a file with an
unresolvable column raises `ValueError` before any storage work. -/

/-- The canonical TML match column set (load_tml.py lines 14-23). -/
def TML_COLS : List String :=
  ["tourney_id", "tourney_name", "surface", "draw_size", "tourney_level",
    "tourney_date", "match_num",
    "winner_id", "winner_seed", "winner_entry", "winner_name", "winner_hand",
    "winner_ht", "winner_ioc", "winner_age", "winner_rank",
    "winner_rank_points",
    "loser_id", "loser_seed", "loser_entry", "loser_name", "loser_hand",
    "loser_ht", "loser_ioc", "loser_age", "loser_rank", "loser_rank_points",
    "score", "best_of", "round", "minutes",
    "w_ace", "w_df", "w_svpt", "w_1stIn", "w_1stWon", "w_2ndWon", "w_SvGms",
    "w_bpSaved", "w_bpFaced",
    "l_ace", "l_df", "l_svpt", "l_1stIn", "l_1stWon", "l_2ndWon", "l_SvGms",
    "l_bpSaved", "l_bpFaced"]

/-- The TML integer columns (load_tml.py lines 27-33). -/
def INTS : List String :=
  ["draw_size", "match_num",
    "winner_seed", "winner_ht", "winner_rank", "winner_rank_points",
    "loser_seed", "loser_ht", "loser_rank", "loser_rank_points",
    "best_of", "minutes", "w_ace", "w_df", "w_svpt", "w_1stIn", "w_1stWon",
    "w_2ndWon", "w_SvGms", "w_bpSaved", "w_bpFaced",
    "l_ace", "l_df", "l_svpt", "l_1stIn", "l_1stWon", "l_2ndWon", "l_SvGms",
    "l_bpSaved", "l_bpFaced"]

/-- A lower-case letter or digit: the characters the header regex keeps. -/
def isCanonChar (c : Char) : Bool :=
  ('a' ≤ c && c ≤ 'z') || ('0' ≤ c && c ≤ '9')

/-- `re.sub(r"[^a-z0-9]+", "_", s)`, character by character: the flag says
whether the previous character already belonged to a non-alphanumeric run,
so each maximal run contributes exactly one underscore. -/
def collapseRunsAux : Bool → List Char → List Char
  | _, [] => []
  | inRun, c :: cs =>
    if isCanonChar c then c :: collapseRunsAux false cs
    else if inRun then collapseRunsAux true cs
    else '_' :: collapseRunsAux true cs

/-- `re.sub(r"[^a-z0-9]+", "_", s)`: collapse every run of characters
outside `[a-z0-9]` to a single underscore. -/
def collapseRuns (cs : List Char) : List Char :=
  collapseRunsAux false cs

/-- `.strip("_")`. -/
def trimUnderscores (cs : List Char) : List Char :=
  ((cs.dropWhile (fun c => c = '_')).reverse.dropWhile (fun c => c = '_')).reverse

/-- load_tml.py, `canon` (lines 49-50): strip, lowercase, collapse
non-alphanumeric runs to `_`, strip underscores. -/
def canon (s : String) : String :=
  String.mk (trimUnderscores (collapseRuns (pyLower (pyStrip s)).toList))

/-- The canonical keys the reader expects: the canon of every TML column. -/
def expectKeys : List String := TML_COLS.map canon

/-- The expected column name for a canonical key (the `expect[k]` of the
rename map). -/
def canonName (k : String) : String :=
  (TML_COLS.find? (fun e => canon e = k)).getD ""

/-- load_tml.py, `read_file`, column resolution (lines 52-63): compute the
canonically missing columns; if some are missing, rename the source columns
whose canon matches an expected column to the expected spelling and
recompute; if columns are still missing, raise `ValueError` for the whole
file. -/
def read_file_check (srcCols : List String) : Except String Unit :=
  let missing1 := expectKeys.filter (fun k => ¬ (srcCols.map canon).contains k)
  if missing1.isEmpty then Except.ok ()
  else
    let renamed := srcCols.map (fun c =>
      if expectKeys.contains (canon c) then canonName (canon c) else c)
    let missing2 := expectKeys.filter (fun k =>
      ¬ (renamed.map canon).contains k)
    if missing2.isEmpty then Except.ok ()
    else Except.error "missing columns"

/-- Resolvability of the TML columns: every canonical column has a source
column with the same canon. -/
def read_file_resolvable (srcCols : List String) : Bool :=
  TML_COLS.all (fun e => srcCols.any (fun c => canon c = canon e))

/-- One TML file processed end to end: `read_file` raises on unresolvable
columns — the error propagates to the caller before any storage write — and
otherwise the coerced frame is handed to `upsert_matches`
(load_tml.py lines 226-228). -/
def process_tml_file (t : Table MatchKey (List MVal)) (srcCols : List String)
    (df : List MatchRow) : Table MatchKey (List MVal) × ApplyStatus :=
  match read_file_check srcCols with
  | Except.error _ => (t, ApplyStatus.failed)
  | Except.ok _ => upsert_matches t df

/-! ## Row-tolerant numeric coercion

`_coerce_numeric_cols` (load_sackmann.py lines 187-193) coerces each listed
column cell-wise with `pd.to_numeric(errors="coerce").astype("Int64")`,
creating absent listed columns as missing; `read_file` (load_tml.py lines
76-78) runs the same cell-wise coercion over the `INTS` columns present.
Rows are modelled as functions from column name to raw cell. -/

/-- One cell of `_coerce_numeric_cols`: a listed column present in the frame
is integer-coerced, a listed column absent from the frame becomes missing,
and every other column keeps its raw cell. -/
def coerce_numeric_cell (dfCols : List String) (cols : List String)
    (row : String → Option String) (c : String) : MVal :=
  if cols.contains c then
    (if dfCols.contains c then MVal.vInt (parseIntOpt (row c))
     else MVal.vInt none)
  else MVal.vStr (row c)

/-- `_coerce_numeric_cols` on one row. -/
def coerce_numeric_row (dfCols : List String) (cols : List String)
    (row : String → Option String) : String → MVal :=
  fun c => coerce_numeric_cell dfCols cols row c

/-- `_coerce_numeric_cols` on a whole frame: every row is kept. -/
def coerce_numeric_batch (dfCols : List String) (cols : List String)
    (rows : List (String → Option String)) : List (String → MVal) :=
  rows.map (coerce_numeric_row dfCols cols)

/-- The `INTS` coercion loop of `read_file` (load_tml.py lines 76-78) on one
cell: an integer column present in the frame is integer-coerced, everything
else keeps its raw cell. -/
def tml_coerce_int_cell (dfCols : List String)
    (row : String → Option String) (c : String) : MVal :=
  if INTS.contains c && dfCols.contains c then MVal.vInt (parseIntOpt (row c))
  else MVal.vStr (row c)

/-- A source row with one cell replaced. -/
def updateCell (row : String → Option String) (c : String) (v : Option String) :
    String → Option String :=
  fun c2 => if c2 = c then v else row c2

/-! ## Lemmas about the natural-key merge -/

section UpsertLemmas

variable {K V : Type} [DecidableEq K]

theorem lookupKey_append (t₁ t₂ : Table K V) (k : K) :
    lookupKey (t₁ ++ t₂) k =
      match lookupKey t₁ k with
      | some v => some v
      | none => lookupKey t₂ k := by
  induction t₁ with
  | nil => simp [lookupKey]
  | cons e t ih =>
    by_cases h : e.1 = k <;> simp [lookupKey, h, ih]

theorem any_eq_isSome_lookupKey (t : Table K V) (k : K) :
    (t.any (fun x => x.1 = k)) = (lookupKey t k).isSome := by
  induction t with
  | nil => simp [lookupKey]
  | cons e t ih =>
    by_cases h : e.1 = k <;> simp [lookupKey, h, ih]

theorem overwriteKey_cons (e : K × V) (t : Table K V) (k : K) (v : V) :
    overwriteKey (e :: t) k v =
      (if e.1 = k then (e.1, v) else e) :: overwriteKey t k v := rfl

theorem lookupKey_overwriteKey_self (t : Table K V) (k : K) (v : V) :
    lookupKey (overwriteKey t k v) k = (lookupKey t k).map (fun _ => v) := by
  induction t with
  | nil => rfl
  | cons e t ih =>
    rw [overwriteKey_cons]
    by_cases he : e.1 = k
    · simp [lookupKey, he]
    · simp [lookupKey, he, ih]

theorem lookupKey_overwriteKey_ne (t : Table K V) (k₀ k : K) (v : V) (h : k ≠ k₀) :
    lookupKey (overwriteKey t k₀ v) k = lookupKey t k := by
  induction t with
  | nil => rfl
  | cons e t ih =>
    rw [overwriteKey_cons]
    by_cases he : e.1 = k₀
    · have hek : e.1 ≠ k := by rw [he]; exact fun hk => h hk.symm
      simp [lookupKey, he, hek, ih, Ne.symm h]
    · by_cases hk : e.1 = k
      · simp [lookupKey, he, hk, h]
      · simp [lookupKey, he, hk, ih]

/-- Effect of a single-row merge on a key lookup: the merged row's key now
holds the staged fields, all other keys are untouched. -/
theorem lookupKey_upsertRow (t : Table K V) (e : K × V) (k : K) :
    lookupKey (upsertRow t e) k =
      if k = e.1 then some e.2 else lookupKey t k := by
  unfold upsertRow
  by_cases hp : (t.any (fun x => x.1 = e.1)) = true
  · rw [if_pos hp]
    by_cases hk : k = e.1
    · rw [if_pos hk, hk, lookupKey_overwriteKey_self]
      have hs : (lookupKey t e.1).isSome = true := by
        rw [← any_eq_isSome_lookupKey]; exact hp
      cases hlk : lookupKey t e.1 with
      | none => rw [hlk] at hs; simp at hs
      | some v => rfl
    · rw [if_neg hk, lookupKey_overwriteKey_ne t e.1 k e.2 hk]
  · rw [if_neg hp, lookupKey_append]
    have hnone : lookupKey t e.1 = none := by
      cases hlk : lookupKey t e.1 with
      | none => rfl
      | some v =>
        exfalso; apply hp
        rw [any_eq_isSome_lookupKey, hlk]; rfl
    by_cases hk : k = e.1
    · rw [if_pos hk, hk, hnone]
      simp [lookupKey]
    · rw [if_neg hk]
      cases hlk : lookupKey t k with
      | some v => rfl
      | none =>
        have hek : e.1 ≠ k := fun hh => hk hh.symm
        simp [lookupKey, hek]

theorem upsertBatch_nil (t : Table K V) : upsertBatch t [] = t := rfl

theorem upsertBatch_cons (t : Table K V) (e : K × V) (b : List (K × V)) :
    upsertBatch t (e :: b) = upsertBatch (upsertRow t e) b := rfl

/-- Frame property of a batch merge: a key absent from the batch keeps its
pre-merge fields (or its absence). -/
theorem lookupKey_upsertBatch_not_mem (b : List (K × V)) (t : Table K V) (k : K)
    (h : k ∉ keysOf b) :
    lookupKey (upsertBatch t b) k = lookupKey t k := by
  induction b generalizing t with
  | nil => rfl
  | cons e b ih =>
    rw [upsertBatch_cons]
    have hke : k ≠ e.1 := by
      intro hk; exact h (by rw [hk]; exact List.mem_cons_self _ _)
    have hb : k ∉ keysOf b := fun hk => h (List.mem_cons_of_mem _ hk)
    rw [ih (upsertRow t e) hb, lookupKey_upsertRow, if_neg hke]

/-- After merging a batch with unique natural keys, every key of the batch
holds exactly that batch row's non-key fields. -/
theorem lookupKey_upsertBatch_mem (b : List (K × V)) (t : Table K V) (k : K) (v : V)
    (hnd : (keysOf b).Nodup) (hmem : (k, v) ∈ b) :
    lookupKey (upsertBatch t b) k = some v := by
  induction b generalizing t with
  | nil => cases hmem
  | cons e b ih =>
    rw [upsertBatch_cons]
    rcases List.mem_cons.mp hmem with h1 | h2
    · have hk1 : k = e.1 := by rw [← h1]
      have hv1 : v = e.2 := by rw [← h1]
      have hknotb : k ∉ keysOf b := by
        rw [hk1]; exact (List.nodup_cons.mp hnd).1
      rw [lookupKey_upsertBatch_not_mem b _ k hknotb, lookupKey_upsertRow,
        if_pos hk1, ← hv1]
    · exact ih (upsertRow t e) (List.nodup_cons.mp hnd).2 h2

theorem overwriteKey_eq_self (t : Table K V) (k : K) (v : V)
    (hall : AllKeyVal t k v) : overwriteKey t k v = t := by
  induction t with
  | nil => rfl
  | cons e t ih =>
    rw [overwriteKey_cons]
    have htail := ih (fun x hx hk => hall x (List.mem_cons_of_mem _ hx) hk)
    by_cases he : e.1 = k
    · have hev : e.2 = v := hall e (List.mem_cons_self _ _) he
      have hpair : (e.1, v) = e := by rw [← hev]
      rw [if_pos he, hpair, htail]
    · rw [if_neg he, htail]

theorem upsertRow_eq_self (t : Table K V) (k : K) (v : V)
    (hall : AllKeyVal t k v) (hmem : (lookupKey t k).isSome = true) :
    upsertRow t (k, v) = t := by
  unfold upsertRow
  rw [show (t.any (fun x => x.1 = (k, v).1)) = true by
    rw [any_eq_isSome_lookupKey]; exact hmem]
  exact overwriteKey_eq_self t k v hall

theorem allKeyVal_upsertRow_self (t : Table K V) (k : K) (v : V) :
    AllKeyVal (upsertRow t (k, v)) k v := by
  unfold upsertRow
  by_cases hp : (t.any (fun x => x.1 = (k, v).1)) = true
  · rw [if_pos hp]
    intro e he hek
    rcases List.mem_map.mp he with ⟨x, _, hfx⟩
    by_cases hx : x.1 = k
    · rw [if_pos hx] at hfx; rw [← hfx]
    · rw [if_neg hx] at hfx; rw [← hfx] at hek; exact absurd hek hx
  · rw [if_neg hp]
    intro e he hek
    rcases List.mem_append.mp he with h1 | h2
    · exfalso
      have hf : t.any (fun x => x.1 = (k, v).1) = false := Bool.eq_false_iff.mpr hp
      have hne := List.any_eq_false.mp hf e h1
      simp at hne
      exact hne hek
    · rw [List.mem_singleton.mp h2]

/-- Rows with other keys never disturb the rows holding key `k`. -/
theorem allKeyVal_upsertRow_ne (t : Table K V) (k : K) (v : V) (e : K × V)
    (hne : e.1 ≠ k) (hall : AllKeyVal t k v) :
    AllKeyVal (upsertRow t e) k v := by
  unfold upsertRow
  by_cases hp : (t.any (fun x => x.1 = e.1)) = true
  · rw [if_pos hp]
    intro x hx hxk
    rcases List.mem_map.mp hx with ⟨y, hy, hfy⟩
    by_cases hk : y.1 = e.1
    · rw [if_pos hk] at hfy
      rw [← hfy] at hxk
      exact absurd (hk ▸ hxk) hne
    · rw [if_neg hk] at hfy
      exact hall x (hfy ▸ hy) hxk
  · rw [if_neg hp]
    intro x hx hxk
    rcases List.mem_append.mp hx with h1 | h2
    · exact hall x h1 hxk
    · rw [List.mem_singleton.mp h2] at hxk
      exact absurd hxk hne

theorem isSome_lookupKey_upsertRow (t : Table K V) (e : K × V) (k : K)
    (h : (lookupKey t k).isSome = true) :
    (lookupKey (upsertRow t e) k).isSome = true := by
  rw [lookupKey_upsertRow]
  by_cases hk : k = e.1
  · rw [if_pos hk]; rfl
  · rw [if_neg hk]; exact h

theorem allKeyVal_upsertBatch_of_not_mem (b : List (K × V)) (t : Table K V)
    (k : K) (v : V) (hk : k ∉ keysOf b) (hall : AllKeyVal t k v)
    (hsome : (lookupKey t k).isSome = true) :
    AllKeyVal (upsertBatch t b) k v ∧
      (lookupKey (upsertBatch t b) k).isSome = true := by
  induction b generalizing t with
  | nil => exact ⟨hall, hsome⟩
  | cons e b ih =>
    rw [upsertBatch_cons]
    have hek : e.1 ≠ k := by
      intro hh; exact hk (by rw [← hh]; exact List.mem_cons_self _ _)
    have hb : k ∉ keysOf b := fun hh => hk (List.mem_cons_of_mem _ hh)
    exact ih _ hb (allKeyVal_upsertRow_ne t k v e hek hall)
      (isSome_lookupKey_upsertRow t e k hsome)

theorem allKeyVal_upsertBatch_of_mem (b : List (K × V)) (t : Table K V)
    (k : K) (v : V) (hnd : (keysOf b).Nodup) (hmem : (k, v) ∈ b) :
    AllKeyVal (upsertBatch t b) k v ∧
      (lookupKey (upsertBatch t b) k).isSome = true := by
  induction b generalizing t with
  | nil => cases hmem
  | cons e b ih =>
    rw [upsertBatch_cons]
    rcases List.mem_cons.mp hmem with h1 | h2
    · have hk1 : k = e.1 := by rw [← h1]
      have hknotb : k ∉ keysOf b := by
        rw [hk1]; exact (List.nodup_cons.mp hnd).1
      have h1s : e = (k, v) := h1.symm
      refine allKeyVal_upsertBatch_of_not_mem b _ k v hknotb ?_ ?_
      · rw [h1s]; exact allKeyVal_upsertRow_self t k v
      · rw [lookupKey_upsertRow, if_pos hk1]; rfl
    · exact ih (upsertRow t e) (List.nodup_cons.mp hnd).2 h2

theorem foldl_fixed {α β : Type} (f : α → β → α) (a : α) (l : List β)
    (h : ∀ x ∈ l, f a x = a) : l.foldl f a = a := by
  induction l with
  | nil => rfl
  | cons x l ih =>
    rw [List.foldl_cons, h x (List.mem_cons_self _ _)]
    exact ih (fun y hy => h y (List.mem_cons_of_mem _ hy))

/-- Idempotence of the natural-key merge: re-merging a batch with unique
keys into a table that already absorbed it is the identity. -/
theorem upsertBatch_idem (t : Table K V) (b : List (K × V))
    (hnd : (keysOf b).Nodup) :
    upsertBatch (upsertBatch t b) b = upsertBatch t b := by
  apply foldl_fixed
  intro e he
  obtain ⟨hall, hsome⟩ :=
    allKeyVal_upsertBatch_of_mem b t e.1 e.2 hnd (by simpa using he)
  have : upsertRow (upsertBatch t b) (e.1, e.2) = upsertBatch t b :=
    upsertRow_eq_self _ e.1 e.2 hall hsome
  simpa using this

end UpsertLemmas

/-! ## Lemmas about the Deduplicator -/

section DedupLemmas

variable {R κ : Type} [DecidableEq κ]

theorem filter_orderedInsertBy (le : R → R → Bool) (key : R → κ)
    (hk : ∀ a b : R, key a = key b → le a b = true) (x : R) (k : κ)
    (l : List R) :
    (orderedInsertBy le x l).filter (fun r => key r = k) =
      if key x = k then x :: l.filter (fun r => key r = k)
      else l.filter (fun r => key r = k) := by
  induction l with
  | nil =>
    by_cases hx : key x = k <;> simp [orderedInsertBy, List.filter, hx]
  | cons y l ih =>
    unfold orderedInsertBy
    by_cases hle : le x y = true
    · rw [if_pos hle]
      by_cases hx : key x = k <;> by_cases hy : key y = k <;>
        simp [List.filter_cons, hx, hy]
    · rw [if_neg hle]
      have hxy : key x ≠ key y := fun h => hle (hk x y h)
      by_cases hx : key x = k
      · have hy : key y ≠ k := by rw [← hx]; exact fun h => hxy h.symm
        simp [List.filter_cons, hx, hy, ih]
      · by_cases hy : key y = k <;> simp [List.filter_cons, hx, hy, ih]

/-- Stability of the key sort in extensional form: the subsequence of rows
with any fixed key is unchanged by sorting, so equal-key rows keep their
original arrival order. -/
theorem filter_insSortBy (le : R → R → Bool) (key : R → κ)
    (hk : ∀ a b : R, key a = key b → le a b = true) (k : κ) (l : List R) :
    (insSortBy le l).filter (fun r => key r = k) =
      l.filter (fun r => key r = k) := by
  induction l with
  | nil => rfl
  | cons a l ih =>
    show (orderedInsertBy le a (insSortBy le l)).filter _ = _
    rw [filter_orderedInsertBy le key hk a k (insSortBy le l)]
    by_cases ha : key a = k <;> simp [List.filter_cons, ha, ih]

/-- `keep="last"`: for each key the surviving subsequence is exactly the
last row of that key's subsequence. -/
theorem filter_keepLastBy (key : R → κ) (k : κ) (l : List R) :
    (keepLastBy key l).filter (fun r => key r = k) =
      ((l.filter (fun r => key r = k)).getLast?).toList := by
  induction l with
  | nil => rfl
  | cons r rs ih =>
    unfold keepLastBy
    by_cases hany : (rs.any (fun s => key s = key r)) = true
    · rw [if_pos hany]
      by_cases hrk : key r = k
      · obtain ⟨s, hs, hsk⟩ := by
          simpa using hany
        have hsk2 : key s = k := by rw [hsk, hrk]
        have hmem : s ∈ rs.filter (fun r => key r = k) := by
          simp [List.mem_filter, hs, hsk2]
        have hne : rs.filter (fun r => key r = k) ≠ [] :=
          List.ne_nil_of_mem hmem
        rw [ih, List.filter_cons_of_pos (by simp [hrk])]
        cases hf : rs.filter (fun r => key r = k) with
        | nil => exact absurd hf hne
        | cons a as => rw [List.getLast?_cons_cons]
      · rw [ih, List.filter_cons_of_neg (by simp [hrk])]
    · rw [if_neg hany]
      have hnot : ∀ s ∈ rs, key s ≠ key r := by
        intro s hs
        have := List.any_eq_false.mp (Bool.eq_false_iff.mpr hany) s hs
        simpa using this
      by_cases hrk : key r = k
      · have hfil : rs.filter (fun r => key r = k) = [] := by
          rw [List.filter_eq_nil_iff]
          intro s hs
          simp only [decide_eq_true_eq]
          rw [← hrk]
          exact hnot s hs
        rw [List.filter_cons_of_pos (by simp [hrk]), ih, hfil,
          List.filter_cons_of_pos (by simp [hrk]), hfil]
        rfl
      · rw [List.filter_cons_of_neg (by simp [hrk]), ih,
          List.filter_cons_of_neg (by simp [hrk])]

/-- `keep="first"`: for each key not yet seen the surviving subsequence is
exactly the first row of that key's subsequence, and already-seen keys never
survive. -/
theorem filter_keepFirstBy (key : R → κ) (k : κ) (l : List R)
    (seen : List κ) :
    (keepFirstBy key l seen).filter (fun r => key r = k) =
      if seen.contains k then []
      else ((l.filter (fun r => key r = k)).head?).toList := by
  induction l generalizing seen with
  | nil => by_cases hs : seen.contains k = true <;> simp [keepFirstBy, hs]
  | cons r rs ih =>
    unfold keepFirstBy
    by_cases hc : (seen.contains (key r)) = true
    · rw [if_pos hc, ih seen]
      by_cases hsk : seen.contains k = true
      · rw [if_pos hsk, if_pos hsk]
      · have hrk : key r ≠ k := by
          intro h; rw [h] at hc; exact hsk hc
        rw [if_neg hsk, if_neg hsk, List.filter_cons_of_neg (by simp [hrk])]
    · rw [if_neg hc]
      by_cases hrk : key r = k
      · have hsk : seen.contains k = false := by
          rw [← hrk]; exact Bool.eq_false_iff.mpr hc
        rw [List.filter_cons_of_pos (by simp [hrk]), ih (key r :: seen),
          if_pos (by simp [List.contains_cons, hrk]),
          if_neg (by rw [hsk]; simp),
          List.filter_cons_of_pos (by simp [hrk])]
        rfl
      · rw [List.filter_cons_of_neg (by simp [hrk]), ih (key r :: seen)]
        have hbne : (k == key r) = false := by
          simp only [beq_eq_false_iff_ne]
          exact fun h => hrk h.symm
        have hcons : (key r :: seen).contains k = seen.contains k := by
          rw [List.contains_cons, hbne, Bool.false_or]
        rw [hcons, List.filter_cons_of_neg (by simp [hrk])]

/-- The keys surviving `keep="first"` are distinct and disjoint from the
already-seen keys. -/
theorem keepFirstBy_keys_nodup (key : R → κ) (l : List R) (seen : List κ) :
    ((keepFirstBy key l seen).map key).Nodup ∧
      ∀ x ∈ (keepFirstBy key l seen).map key, seen.contains x = false := by
  induction l generalizing seen with
  | nil => exact ⟨List.nodup_nil, by intro x hx; cases hx⟩
  | cons r rs ih =>
    unfold keepFirstBy
    by_cases hc : (seen.contains (key r)) = true
    · rw [if_pos hc]; exact ih seen
    · rw [if_neg hc]
      obtain ⟨hnd, hdisj⟩ := ih (key r :: seen)
      constructor
      · rw [List.map_cons, List.nodup_cons]
        refine ⟨?_, hnd⟩
        intro hmem
        have := hdisj (key r) hmem
        simp [List.contains_cons] at this
      · intro x hx
        rw [List.map_cons] at hx
        rcases List.mem_cons.mp hx with h1 | h2
        · rw [h1]; exact Bool.eq_false_iff.mpr hc
        · have := hdisj x h2
          simp [List.contains_cons] at this
          exact Bool.eq_false_iff.mpr (by simpa using this.2)

end DedupLemmas

/-! ## Support lemmas for the appliers -/

theorem nodup_append_self {α : Type} (l : List α) (h : (l ++ l).Nodup) :
    l = [] := by
  cases l with
  | nil => rfl
  | cons a t =>
    exfalso
    have hd := (List.nodup_append.mp h).2.2
    exact hd (List.mem_cons_self a t) (List.mem_cons_self a t)

theorem matchRowKey_isSome_of_complete (r : MatchRow)
    (h : matchKeyComplete r = true) : (matchRowKey r).isSome = true := by
  cases h1 : r.tourney_id <;> cases h2 : r.tourney_date <;>
    cases h3 : r.match_num <;>
    simp_all [matchKeyComplete, matchRowKey]

theorem upsert_matches_committed (t : Table MatchKey (List MVal))
    (df : List MatchRow) (he : df.isEmpty = false)
    (hn : (keysOf (stagedMatches df)).Nodup) :
    upsert_matches t df = (upsertBatch t (stagedMatches df), .committed) := by
  simp [upsert_matches, he, hn]

/-! ## Claim theorems -/

/-- C1: applying the same deduplicated load batch twice yields the same
table content as applying it once.  For the TML merge (`upsert_matches`)
this holds for every frame and every table state; for the Sackmann bulk
append into the uniquely keyed `atp.matches` it holds for every
deduplicated batch (all natural keys present and distinct): the second run
either skips (empty batch) or is rolled back whole by the unique index, so
the table after the second run equals the table after the first. -/
theorem claim_C1 (t : Table MatchKey (List MVal)) (df : List MatchRow)
    (ts b : List MatchRow)
    (hcomp : ∀ r ∈ b, matchKeyComplete r = true)
    (hnd : (b.filterMap matchRowKey).Nodup) :
    (upsert_matches (upsert_matches t df).1 df).1 = (upsert_matches t df).1 ∧
      (copy_df_matches (copy_df_matches ts b).1 b).1 =
        (copy_df_matches ts b).1 := by
  constructor
  · by_cases he : df.isEmpty = true
    · simp [upsert_matches, he]
    · have he2 : df.isEmpty = false := Bool.eq_false_iff.mpr he
      by_cases hn : (keysOf (stagedMatches df)).Nodup
      · rw [upsert_matches_committed t df he2 hn]
        show (upsert_matches (upsertBatch t (stagedMatches df)) df).1 =
          upsertBatch t (stagedMatches df)
        rw [upsert_matches_committed _ df he2 hn]
        exact upsertBatch_idem t _ hn
      · simp [upsert_matches, he2, hn]
  · by_cases he : b.isEmpty = true
    · simp [copy_df_matches, copy_df, he]
    · have he2 : b.isEmpty = false := Bool.eq_false_iff.mpr he
      by_cases h1 : matchesUniqueOk ts b = true
      · have hfirst : copy_df_matches ts b = (ts ++ b, .committed) := by
          simp [copy_df_matches, copy_df, he2, h1]
        rw [hfirst]
        show (copy_df_matches (ts ++ b) b).1 = ts ++ b
        have hbne : b ≠ [] := by simpa [List.isEmpty_iff] using he
        obtain ⟨r0, hr0⟩ : ∃ r, r ∈ b := by
          cases b with
          | nil => exact absurd rfl hbne
          | cons x xs => exact ⟨x, List.mem_cons_self _ _⟩
        obtain ⟨k0, hk0e⟩ := Option.isSome_iff_exists.mp
          (matchRowKey_isSome_of_complete r0 (hcomp r0 hr0))
        have hk0mem : k0 ∈ b.filterMap matchRowKey :=
          List.mem_filterMap.mpr ⟨r0, hr0, hk0e⟩
        have h2 : matchesUniqueOk (ts ++ b) b = false := by
          unfold matchesUniqueOk
          rw [decide_eq_false_iff_not]
          intro hnodup
          have hsub : ((b.filterMap matchRowKey) ++ (b.filterMap matchRowKey)).Sublist
              (((ts ++ b) ++ b).filterMap matchRowKey) := by
            rw [List.filterMap_append, List.filterMap_append]
            exact (List.sublist_append_right _ _).append_right _
          have hnd2 : ((b.filterMap matchRowKey) ++ (b.filterMap matchRowKey)).Nodup :=
            List.Nodup.sublist hsub hnodup
          have hnil := nodup_append_self _ hnd2
          rw [hnil] at hk0mem
          cases hk0mem
        simp [copy_df_matches, copy_df, he2, h2]
      · have hfirst : copy_df_matches ts b = (ts, .failed) := by
          simp [copy_df_matches, copy_df, he2, h1]
        rw [hfirst]
        show (copy_df_matches ts b).1 = ts
        rw [hfirst]

/-- Witness for C1 at a concrete one-row batch. -/
theorem claim_C1_witness :
    (∀ r ∈ ([⟨some "2023-580", some 20230116, some 1,
        [MVal.vStr (some "Hard")]⟩] : List MatchRow),
      matchKeyComplete r = true) ∧
    (([⟨some "2023-580", some 20230116, some 1,
        [MVal.vStr (some "Hard")]⟩] : List MatchRow).filterMap
      matchRowKey).Nodup ∧
    ((upsert_matches (upsert_matches ([] : Table MatchKey (List MVal))
        [⟨some "2023-580", some 20230116, some 1, [MVal.vStr (some "Hard")]⟩]).1
        [⟨some "2023-580", some 20230116, some 1, [MVal.vStr (some "Hard")]⟩]).1 =
      (upsert_matches ([] : Table MatchKey (List MVal))
        [⟨some "2023-580", some 20230116, some 1, [MVal.vStr (some "Hard")]⟩]).1 ∧
      (copy_df_matches (copy_df_matches ([] : List MatchRow)
        [⟨some "2023-580", some 20230116, some 1, [MVal.vStr (some "Hard")]⟩]).1
        [⟨some "2023-580", some 20230116, some 1, [MVal.vStr (some "Hard")]⟩]).1 =
      (copy_df_matches ([] : List MatchRow)
        [⟨some "2023-580", some 20230116, some 1, [MVal.vStr (some "Hard")]⟩]).1) :=
  ⟨by decide, by decide,
    claim_C1 [] [⟨some "2023-580", some 20230116, some 1, [MVal.vStr (some "Hard")]⟩]
      [] [⟨some "2023-580", some 20230116, some 1, [MVal.vStr (some "Hard")]⟩]
      (by decide) (by decide)⟩

theorem players_ref_entries_keys_nodup (src : List PRefSrc) :
    (keysOf (players_ref_entries src)).Nodup := by
  have h := (keepFirstBy_keys_nodup (fun r : PRefRec => r.player_id)
    ((src.map players_ref_row).filter (fun r => r.player_id.length > 0)) []).1
  simpa [players_ref_entries, players_ref_batch, keysOf, List.map_map,
    Function.comp] using h

theorem load_players_ref_apply_eq (t : Table String PRefFields)
    (src : List PRefSrc) :
    load_players_ref_apply t src =
      (upsertBatch t (players_ref_entries src), .committed) := by
  simp [load_players_ref_apply, players_ref_entries_keys_nodup src]

/-- C2: merging a deduplicated staged batch makes the target table hold the
batch's non-key field values at every key of the batch, leaves every key not
in the batch untouched, and the whole apply either fully applies or has no
effect — for both the TML match merge and the players-reference merge
(whose staged batch is deduplicated by construction). -/
theorem claim_C2 (t : Table MatchKey (List MVal)) (df : List MatchRow)
    (hnd : (keysOf (stagedMatches df)).Nodup) :
    ((upsert_matches t df).1 = upsertBatch t (stagedMatches df) ∨
      (upsert_matches t df).1 = t) ∧
    (∀ k v, (k, v) ∈ stagedMatches df →
      lookupKey (upsert_matches t df).1 k = some v) ∧
    (∀ k, k ∉ keysOf (stagedMatches df) →
      lookupKey (upsert_matches t df).1 k = lookupKey t k) ∧
    (∀ (tp : Table String PRefFields) (src : List PRefSrc)
        (k2 : String) (v2 : PRefFields),
      ((k2, v2) ∈ players_ref_entries src →
        lookupKey (load_players_ref_apply tp src).1 k2 = some v2) ∧
      (k2 ∉ keysOf (players_ref_entries src) →
        lookupKey (load_players_ref_apply tp src).1 k2 = lookupKey tp k2)) := by
  by_cases he : df.isEmpty = true
  · have hdf : df = [] := List.isEmpty_iff.mp he
    subst hdf
    refine ⟨Or.inr rfl, ?_, ?_, ?_⟩
    · intro k v hkv; cases hkv
    · intro k _; rfl
    · intro tp src k2 v2
      rw [load_players_ref_apply_eq tp src]
      exact ⟨fun hmem => lookupKey_upsertBatch_mem _ tp k2 v2
          (players_ref_entries_keys_nodup src) hmem,
        fun hnm => lookupKey_upsertBatch_not_mem _ tp k2 hnm⟩
  · have he2 : df.isEmpty = false := Bool.eq_false_iff.mpr he
    rw [upsert_matches_committed t df he2 hnd]
    refine ⟨Or.inl rfl, ?_, ?_, ?_⟩
    · intro k v hkv
      exact lookupKey_upsertBatch_mem _ t k v hnd hkv
    · intro k hk
      exact lookupKey_upsertBatch_not_mem _ t k hk
    · intro tp src k2 v2
      rw [load_players_ref_apply_eq tp src]
      exact ⟨fun hmem => lookupKey_upsertBatch_mem _ tp k2 v2
          (players_ref_entries_keys_nodup src) hmem,
        fun hnm => lookupKey_upsertBatch_not_mem _ tp k2 hnm⟩

/-- Witness for C2 at a concrete one-row frame. -/
theorem claim_C2_witness :
    (keysOf (stagedMatches ([⟨some "2023-580", some 20230116, some 1,
        [MVal.vInt (some 3)]⟩] : List MatchRow))).Nodup ∧
    (((upsert_matches ([(("x", 20220101, 9), [MVal.vInt (some 7)])] :
          Table MatchKey (List MVal))
        [⟨some "2023-580", some 20230116, some 1, [MVal.vInt (some 3)]⟩]).1 =
      upsertBatch [(("x", 20220101, 9), [MVal.vInt (some 7)])]
        (stagedMatches
          [⟨some "2023-580", some 20230116, some 1, [MVal.vInt (some 3)]⟩]) ∨
      (upsert_matches [(("x", 20220101, 9), [MVal.vInt (some 7)])]
        [⟨some "2023-580", some 20230116, some 1, [MVal.vInt (some 3)]⟩]).1 =
      [(("x", 20220101, 9), [MVal.vInt (some 7)])]) ∧
    (∀ k v, (k, v) ∈ stagedMatches
        [⟨some "2023-580", some 20230116, some 1, [MVal.vInt (some 3)]⟩] →
      lookupKey (upsert_matches [(("x", 20220101, 9), [MVal.vInt (some 7)])]
        [⟨some "2023-580", some 20230116, some 1, [MVal.vInt (some 3)]⟩]).1 k =
        some v) ∧
    (∀ k, k ∉ keysOf (stagedMatches
        [⟨some "2023-580", some 20230116, some 1, [MVal.vInt (some 3)]⟩]) →
      lookupKey (upsert_matches [(("x", 20220101, 9), [MVal.vInt (some 7)])]
        [⟨some "2023-580", some 20230116, some 1, [MVal.vInt (some 3)]⟩]).1 k =
        lookupKey [(("x", 20220101, 9), [MVal.vInt (some 7)])] k) ∧
    (∀ (tp : Table String PRefFields) (src : List PRefSrc)
        (k2 : String) (v2 : PRefFields),
      ((k2, v2) ∈ players_ref_entries src →
        lookupKey (load_players_ref_apply tp src).1 k2 = some v2) ∧
      (k2 ∉ keysOf (players_ref_entries src) →
        lookupKey (load_players_ref_apply tp src).1 k2 = lookupKey tp k2))) :=
  ⟨by decide,
    claim_C2 [(("x", 20220101, 9), [MVal.vInt (some 7)])]
      [⟨some "2023-580", some 20230116, some 1, [MVal.vInt (some 3)]⟩]
      (by decide)⟩

/-- C3: last-applied-wins across batches — applying frame `df1` and then
frame `df2`, where both stage the natural key `k`, leaves the table holding
`df2`'s non-key field values at `k`. -/
theorem claim_C3 (t : Table MatchKey (List MVal)) (df1 df2 : List MatchRow)
    (k : MatchKey) (v1 v2 : List MVal)
    (hshared : (k, v1) ∈ stagedMatches df1)
    (hnd2 : (keysOf (stagedMatches df2)).Nodup)
    (hmem2 : (k, v2) ∈ stagedMatches df2) :
    lookupKey (upsert_matches (upsert_matches t df1).1 df2).1 k = some v2 := by
  have hne2 : df2.isEmpty = false := by
    cases df2 with
    | nil => cases hmem2
    | cons x xs => rfl
  rw [upsert_matches_committed _ df2 hne2 hnd2]
  exact lookupKey_upsertBatch_mem _ _ k v2 hnd2 hmem2

/-- Witness for C3: a key staged by both frames ends at the second frame's
values. -/
theorem claim_C3_witness :
    ((("2023-580", 20230116, 1), [MVal.vInt (some 3)]) ∈ stagedMatches
      [⟨some "2023-580", some 20230116, some 1, [MVal.vInt (some 3)]⟩] ∧
    (keysOf (stagedMatches ([⟨some "2023-580", some 20230116, some 1,
        [MVal.vInt (some 5)]⟩] : List MatchRow))).Nodup ∧
    (("2023-580", 20230116, 1), [MVal.vInt (some 5)]) ∈ stagedMatches
      [⟨some "2023-580", some 20230116, some 1, [MVal.vInt (some 5)]⟩]) ∧
    lookupKey (upsert_matches (upsert_matches ([] : Table MatchKey (List MVal))
        [⟨some "2023-580", some 20230116, some 1, [MVal.vInt (some 3)]⟩]).1
        [⟨some "2023-580", some 20230116, some 1, [MVal.vInt (some 5)]⟩]).1
      ("2023-580", 20230116, 1) = some [MVal.vInt (some 5)] :=
  ⟨⟨by decide, by decide, by decide⟩,
    claim_C3 [] [⟨some "2023-580", some 20230116, some 1, [MVal.vInt (some 3)]⟩]
      [⟨some "2023-580", some 20230116, some 1, [MVal.vInt (some 5)]⟩]
      ("2023-580", 20230116, 1) [MVal.vInt (some 3)] [MVal.vInt (some 5)]
      (by decide) (by decide) (by decide)⟩

theorem rankKeyLe_of_eq (a b : RankRow) (h : rankKey a = rankKey b) :
    rankKeyLe a b = true := by
  have h1 : a.date = b.date := congrArg Prod.fst h
  have h2 : a.pid = b.pid := congrArg Prod.snd h
  simp [rankKeyLe, h1, h2]

/-- C4 counterexample: the claim predicts that among rows sharing a natural
key the last arrival survives deduplication for every batch; but for the
players-reference batch of two rows with the same `player_id` "1", arriving
with `player` field "A" then "B", the survivor is not the "B" row — the
players-reference dedupe keeps the first occurrence
(`drop_duplicates(keep="first")`). -/
theorem claim_C4_cex :
    ¬ ((players_ref_batch
        [⟨some "1", some "A", some "a", some "SRB", some "R", some "2",
          some "188", some "19870522"⟩,
         ⟨some "1", some "B", some "b", some "SRB", some "R", some "2",
          some "188", some "19870522"⟩]).map
      (fun r => r.player) = ["B"]) := by decide

/-- C4 amended: for ranking batches the Deduplicator keeps, among rows
sharing a natural key, the last row of the stable key-sorted sequence —
equivalently the last arrival of that key — and in the scenario of one
(ranking_date, player_id) key appearing twice, arrival A then B, only B
survives with dropped-duplicate count 1; the players-reference dedupe
instead keeps the first arrival of each `player_id`. -/
theorem claim_C4 :
    (∀ (l : List RankRow) (k : Nat × Int),
      (rankings_dedupe l).filter (fun r => rankKey r = k) =
        ((l.filter (fun r => rankKey r = k)).getLast?).toList) ∧
    (rankings_dedupe [⟨20230102, 104925, some 1, some 7000⟩,
        ⟨20230102, 104925, some 1, some 7500⟩] =
      [⟨20230102, 104925, some 1, some 7500⟩] ∧
      ([(⟨20230102, 104925, some 1, some 7000⟩ : RankRow),
        ⟨20230102, 104925, some 1, some 7500⟩].length -
        (rankings_dedupe [⟨20230102, 104925, some 1, some 7000⟩,
          ⟨20230102, 104925, some 1, some 7500⟩]).length) = 1) ∧
    (∀ (src : List PRefSrc) (k : String),
      (players_ref_batch src).filter (fun r => r.player_id = k) =
        ((((src.map players_ref_row).filter
          (fun r => r.player_id.length > 0)).filter
            (fun r => r.player_id = k)).head?).toList) := by
  refine ⟨?_, by decide, ?_⟩
  · intro l k
    show (keepLastBy rankKey (insSortBy rankKeyLe l)).filter _ = _
    rw [filter_keepLastBy rankKey k (insSortBy rankKeyLe l),
      filter_insSortBy rankKeyLe rankKey rankKeyLe_of_eq k l]
  · intro src k
    unfold players_ref_batch
    rw [filter_keepFirstBy (fun r : PRefRec => r.player_id) k
      ((src.map players_ref_row).filter (fun r => r.player_id.length > 0)) []]
    rfl

/-- C5 counterexample: the claim says no record with a missing natural-key
component ever reaches the apply step, for every entity type; but the
Sackmann match loader hands `copy_df` a batch in which a row lacking
`match_num` is still present — `load_matches` has no key filter. -/
theorem claim_C5_cex :
    ¬ ((load_matches_batch
        [⟨some "2023-580", some "20230116", none, [some "3"],
          [some "Hard"]⟩]).all matchKeyComplete = true) := by decide

theorem matchEntry_isSome_of_complete (r : MatchRow)
    (h : matchKeyComplete r = true) : (matchEntry r).isSome = true := by
  cases h1 : r.tourney_id <;> cases h2 : r.tourney_date <;>
    cases h3 : r.match_num <;>
    simp_all [matchKeyComplete, matchEntry]

theorem matchEntry_none_of_incomplete (r : MatchRow)
    (h : matchKeyComplete r = false) : matchEntry r = none := by
  cases h1 : r.tourney_id <;> cases h2 : r.tourney_date <;>
    cases h3 : r.match_num <;>
    simp_all [matchKeyComplete, matchEntry]

theorem stagedMatches_length (df : List MatchRow) :
    (stagedMatches df).length +
      (df.filter (fun r => ¬ matchKeyComplete r)).length = df.length := by
  induction df with
  | nil => rfl
  | cons r rs ih =>
    simp only [stagedMatches] at ih ⊢
    by_cases hc : matchKeyComplete r = true
    · obtain ⟨e, hee⟩ := Option.isSome_iff_exists.mp
        (matchEntry_isSome_of_complete r hc)
      rw [List.filterMap_cons_some hee,
        List.filter_cons_of_neg (by simp [hc]), List.length_cons,
        List.length_cons]
      omega
    · have hcf : matchKeyComplete r = false := Bool.eq_false_iff.mpr hc
      rw [List.filterMap_cons_none (matchEntry_none_of_incomplete r hcf),
        List.filter_cons_of_pos (by simp [hcf]), List.length_cons,
        List.length_cons]
      omega

theorem rankings_clean_length (rows : List (List (Option String))) :
    (rankings_clean rows).length +
      (rows.filter (fun r => (parseYYYYMMDD (cellAt r 0)).isNone ||
        (parseIntOpt (cellAt r 2)).isNone)).length = rows.length := by
  induction rows with
  | nil => rfl
  | cons r rs ih =>
    simp only [rankings_clean] at ih ⊢
    cases hd : parseYYYYMMDD (cellAt r 0) with
    | none =>
      rw [List.filterMap_cons_none (by simp [rankings_clean_row, hd]),
        List.filter_cons_of_pos (by simp [hd]), List.length_cons,
        List.length_cons]
      omega
    | some d =>
      cases hp : parseIntOpt (cellAt r 2) with
      | none =>
        rw [List.filterMap_cons_none (by simp [rankings_clean_row, hd, hp]),
          List.filter_cons_of_pos (by simp [hd, hp]), List.length_cons,
          List.length_cons]
        omega
      | some p =>
        rw [List.filterMap_cons_some
            (show rankings_clean_row r = some ⟨d, p, parseIntOpt (cellAt r 1),
              parseIntOpt (cellAt r 3)⟩ by simp [rankings_clean_row, hd, hp]),
          List.filter_cons_of_neg (by simp [hd, hp]), List.length_cons,
          List.length_cons]
        omega

/-- C5 amended: in the TML match merge and the rankings loader every row
whose natural key has a missing component is removed (and counted) before
the apply step, while the other rows are all still staged and applied; the
Sackmann match loader, in contrast, applies every row unchanged — rows with
missing key components included. -/
theorem claim_C5 :
    (∀ df : List MatchRow,
      (stagedMatches df).length +
        (df.filter (fun r => ¬ matchKeyComplete r)).length = df.length) ∧
    (∀ (df : List MatchRow) (r : MatchRow) (e : MatchKey × List MVal),
      r ∈ df → matchEntry r = some e → e ∈ stagedMatches df) ∧
    (∀ (df : List MatchRow) (e : MatchKey × List MVal),
      e ∈ stagedMatches df → ∃ r ∈ df, matchEntry r = some e) ∧
    (∀ rows : List (List (Option String)),
      (rankings_clean rows).length +
        (rows.filter (fun r => (parseYYYYMMDD (cellAt r 0)).isNone ||
          (parseIntOpt (cellAt r 2)).isNone)).length = rows.length) ∧
    (∀ rows : List SrcMatchRow,
      (load_matches_batch rows).length = rows.length) := by
  refine ⟨stagedMatches_length, ?_, ?_, rankings_clean_length, ?_⟩
  · intro df r e hr he
    exact List.mem_filterMap.mpr ⟨r, hr, he⟩
  · intro df e he
    exact List.mem_filterMap.mp he
  · intro rows
    exact List.length_map rows load_matches_row

/-- Witness for C5 (amended) at a concrete key-complete row. -/
theorem claim_C5_witness :
    ((⟨some "2023-580", some 20230116, some 1, []⟩ : MatchRow) ∈
      ([⟨some "2023-580", some 20230116, some 1, []⟩,
        ⟨none, some 20230116, some 2, []⟩] : List MatchRow) ∧
     matchEntry (⟨some "2023-580", some 20230116, some 1, []⟩ : MatchRow) =
      some (("2023-580", 20230116, 1), [])) ∧
    (("2023-580", 20230116, 1), ([] : List MVal)) ∈ stagedMatches
      [⟨some "2023-580", some 20230116, some 1, []⟩,
        ⟨none, some 20230116, some 2, []⟩] :=
  ⟨⟨by decide, by decide⟩,
    claim_C5.2.1 [⟨some "2023-580", some 20230116, some 1, []⟩,
        ⟨none, some 20230116, some 2, []⟩]
      ⟨some "2023-580", some 20230116, some 1, []⟩
      (("2023-580", 20230116, 1), []) (by decide) (by decide)⟩

/-- C6: a players file with no header and the seven positional legacy
columns normalizes to the same canonical batch as the equivalent headered
file whose columns use the registered synonyms, with header presence decided
by whether any sentinel column name appears in the first row. -/
theorem claim_C6 (R : List (List (Option String)))
    (hs : ∀ r, R.head? = some r → ∀ s ∈ playersSentinels, some s ∉ r) :
    players_has_header R = false ∧
    players_has_header (legacySynHeader :: R) = true ∧
    load_players_normalize R = load_players_normalize (legacySynHeader :: R) := by
  have h2 : players_has_header R = false := by
    cases R with
    | nil => rfl
    | cons r rs =>
      have hr := hs r rfl
      apply List.any_eq_false.mpr
      intro s hsm hcon
      exact hr s hsm (List.elem_iff.mp hcon)
  refine ⟨h2, rfl, ?_⟩
  unfold load_players_normalize players_frame
  rw [h2]
  rfl

/-- Witness for C6 at a concrete one-row file. -/
theorem claim_C6_witness :
    (∀ r, ([[some "104925", some "Novak", some "Djokovic", some "R",
        some "19870522", some "SRB", some "188"]] :
        List (List (Option String))).head? = some r →
      ∀ s ∈ playersSentinels, some s ∉ r) ∧
    (players_has_header [[some "104925", some "Novak", some "Djokovic",
        some "R", some "19870522", some "SRB", some "188"]] = false ∧
      players_has_header (legacySynHeader ::
        [[some "104925", some "Novak", some "Djokovic", some "R",
          some "19870522", some "SRB", some "188"]]) = true ∧
      load_players_normalize
        [[some "104925", some "Novak", some "Djokovic", some "R",
          some "19870522", some "SRB", some "188"]] =
      load_players_normalize (legacySynHeader ::
        [[some "104925", some "Novak", some "Djokovic", some "R",
          some "19870522", some "SRB", some "188"]])) :=
  ⟨by intro r hr; cases hr; decide,
    claim_C6 [[some "104925", some "Novak", some "Djokovic", some "R",
      some "19870522", some "SRB", some "188"]]
      (by intro r hr; cases hr; decide)⟩

/-- C7 counterexample: the claim says every date field is coerced by the
two-stage rule (compact parse, then flexible fallback, then missing), but
at the raw value "2023-05-01" the Sackmann date coercion differs from the
two-stage coercion: the Sackmann loaders never attempt the fallback, so the
cell goes missing although the flexible parse succeeds. -/
theorem claim_C7_cex :
    coerce_date_sackmann (some "2023-05-01") ≠
      coerce_date_tml (some "2023-05-01") := by decide

/-- C7 amended: in the TML reader the date coercion attempts the compact
YYYYMMDD parse first, falls back to the flexible general parse exactly when
the compact parse fails, and is missing only when both fail; the Sackmann
loaders attempt only the compact parse, mapping its failure directly to
missing. -/
theorem claim_C7 :
    (∀ raw d, parseYYYYMMDD raw = some d → coerce_date_tml raw = some d) ∧
    (∀ raw, parseYYYYMMDD raw = none →
      coerce_date_tml raw = parseFlexibleDate raw) ∧
    (∀ raw, parseYYYYMMDD raw = none → parseFlexibleDate raw = none →
      coerce_date_tml raw = none) ∧
    (∀ raw, coerce_date_sackmann raw = parseYYYYMMDD raw) := by
  refine ⟨?_, ?_, ?_, fun raw => rfl⟩
  · intro raw d h
    simp [coerce_date_tml, h]
  · intro raw h
    simp [coerce_date_tml, h]
  · intro raw h1 h2
    simp [coerce_date_tml, h1, h2]

/-- Witness for C7: the compact parse takes precedence at "20230501"; the
fallback is consulted at "2023-05-01". -/
theorem claim_C7_witness :
    (parseYYYYMMDD (some "20230501") = some 20230501 ∧
      coerce_date_tml (some "20230501") = some 20230501) ∧
    (parseYYYYMMDD (some "2023-05-01") = none ∧
      coerce_date_tml (some "2023-05-01") =
        parseFlexibleDate (some "2023-05-01")) :=
  ⟨⟨by decide, claim_C7.1 (some "20230501") 20230501 (by decide)⟩,
    ⟨by decide, claim_C7.2.1 (some "2023-05-01") (by decide)⟩⟩

/-- C8: a malformed numeric cell in a coerced integer column makes exactly
that field missing: the batch keeps all its rows (the coercion is a total
function — no exception, no drop), the bad cell maps to missing, and
changing that one cell does not affect any other coerced field; likewise
for the `INTS` loop of the TML reader. -/
theorem claim_C8 (dfCols cols : List String)
    (rows : List (String → Option String)) (row : String → Option String)
    (c : String) (v : Option String)
    (hc : cols.contains c = true) (hcd : dfCols.contains c = true)
    (hbad : parseIntOpt (row c) = none) :
    (coerce_numeric_batch dfCols cols rows).length = rows.length ∧
    coerce_numeric_row dfCols cols row c = MVal.vInt none ∧
    (∀ c2, c2 ≠ c →
      coerce_numeric_row dfCols cols (updateCell row c v) c2 =
        coerce_numeric_row dfCols cols row c2) ∧
    (INTS.contains c = true →
      tml_coerce_int_cell dfCols row c = MVal.vInt none) ∧
    (∀ c2, c2 ≠ c →
      tml_coerce_int_cell dfCols (updateCell row c v) c2 =
        tml_coerce_int_cell dfCols row c2) := by
  refine ⟨List.length_map _ _, ?_, ?_, ?_, ?_⟩
  · simp [coerce_numeric_row, coerce_numeric_cell, List.elem_iff.mp hc,
      List.elem_iff.mp hcd, hbad]
  · intro c2 hne
    simp [coerce_numeric_row, coerce_numeric_cell, updateCell, hne]
  · intro hi
    simp [tml_coerce_int_cell, List.elem_iff.mp hi, List.elem_iff.mp hcd,
      hbad]
  · intro c2 hne
    simp [tml_coerce_int_cell, updateCell, hne]

/-- Witness for C8: the cell "abc" in the integer column `minutes` goes
missing while the row survives and the other columns are untouched. -/
theorem claim_C8_witness :
    ((["minutes", "surface"].contains "minutes" = true) ∧
      (["minutes", "surface"].contains "minutes" = true) ∧
      parseIntOpt ((fun c => if c = "minutes" then some "abc"
        else some "Hard") "minutes") = none) ∧
    ((coerce_numeric_batch ["minutes", "surface"] ["minutes"]
        [fun c => if c = "minutes" then some "abc" else some "Hard"]).length =
      ([fun c => if c = "minutes" then some "abc" else some "Hard"] :
        List (String → Option String)).length ∧
      coerce_numeric_row ["minutes", "surface"] ["minutes"]
        (fun c => if c = "minutes" then some "abc" else some "Hard")
        "minutes" = MVal.vInt none ∧
      (∀ c2, c2 ≠ "minutes" →
        coerce_numeric_row ["minutes", "surface"] ["minutes"]
          (updateCell (fun c => if c = "minutes" then some "abc"
            else some "Hard") "minutes" (some "85")) c2 =
        coerce_numeric_row ["minutes", "surface"] ["minutes"]
          (fun c => if c = "minutes" then some "abc" else some "Hard") c2) ∧
      (INTS.contains "minutes" = true →
        tml_coerce_int_cell ["minutes", "surface"]
          (fun c => if c = "minutes" then some "abc" else some "Hard")
          "minutes" = MVal.vInt none) ∧
      (∀ c2, c2 ≠ "minutes" →
        tml_coerce_int_cell ["minutes", "surface"]
          (updateCell (fun c => if c = "minutes" then some "abc"
            else some "Hard") "minutes" (some "85")) c2 =
        tml_coerce_int_cell ["minutes", "surface"]
          (fun c => if c = "minutes" then some "abc" else some "Hard") c2)) :=
  ⟨⟨by decide, by decide, by decide⟩,
    claim_C8 ["minutes", "surface"] ["minutes"]
      [fun c => if c = "minutes" then some "abc" else some "Hard"]
      (fun c => if c = "minutes" then some "abc" else some "Hard")
      "minutes" (some "85") (by decide) (by decide) (by decide)⟩

theorem canon_canonName (c : String)
    (h : expectKeys.contains (canon c) = true) :
    canon (canonName (canon c)) = canon c := by
  have hmem : canon c ∈ expectKeys := List.elem_iff.mp h
  obtain ⟨e, he, hce⟩ := List.mem_map.mp hmem
  have hsome : (TML_COLS.find? (fun e2 => canon e2 = canon c)).isSome :=
    List.find?_isSome.mpr ⟨e, he, by simp [hce]⟩
  obtain ⟨x, hx⟩ := Option.isSome_iff_exists.mp hsome
  have hpx := List.find?_some hx
  unfold canonName
  rw [hx]
  simpa using hpx

theorem renamed_map_canon (srcCols : List String) :
    ((srcCols.map (fun c =>
      if expectKeys.contains (canon c) then canonName (canon c) else c)).map
        canon) = srcCols.map canon := by
  rw [List.map_map]
  apply List.map_congr_left
  intro c _
  by_cases h : expectKeys.contains (canon c) = true
  · simp only [Function.comp_apply, h, if_true]
    exact canon_canonName c h
  · have hnm : canon c ∉ expectKeys := fun hm => h (List.elem_iff.mpr hm)
    simp [Function.comp_apply, hnm]

theorem resolvable_iff_missing_empty (srcCols : List String) :
    read_file_resolvable srcCols =
      (expectKeys.filter
        (fun k => ¬ (srcCols.map canon).contains k)).isEmpty := by
  rw [Bool.eq_iff_iff]
  simp only [read_file_resolvable, List.all_eq_true, List.isEmpty_iff,
    List.filter_eq_nil_iff, expectKeys, List.mem_map, decide_eq_true_eq,
    not_not, List.any_eq_true]
  constructor
  · rintro h k ⟨e, he, rfl⟩
    obtain ⟨c, hc, hcc⟩ := h e he
    exact List.elem_iff.mpr (List.mem_map.mpr ⟨c, hc, hcc⟩)
  · intro h e he
    have := h (canon e) ⟨e, he, rfl⟩
    obtain ⟨c, hc, hcc⟩ := List.mem_map.mp (List.elem_iff.mp this)
    exact ⟨c, hc, hcc⟩

theorem read_file_check_isOk (srcCols : List String) :
    (read_file_check srcCols).isOk = read_file_resolvable srcCols := by
  unfold read_file_check
  rw [resolvable_iff_missing_empty srcCols]
  by_cases hm : (expectKeys.filter
      (fun k => ¬ (srcCols.map canon).contains k)).isEmpty = true
  · rw [if_pos hm, hm]
    rfl
  · have hm2 : (expectKeys.filter (fun k =>
        ¬ ((srcCols.map (fun c => if expectKeys.contains (canon c) then
          canonName (canon c) else c)).map canon).contains k)) =
        expectKeys.filter (fun k => ¬ (srcCols.map canon).contains k) := by
      rw [renamed_map_canon]
    rw [if_neg hm]
    simp only [hm2]
    rw [if_neg hm, Bool.eq_false_iff.mpr hm]
    rfl

theorem pick_isSome_eq_any (cols cands : List String) :
    (pick cols cands).isSome = cands.any (fun c => cols.contains c) := by
  induction cands with
  | nil => rfl
  | cons c cs ih =>
    unfold pick
    rw [List.find?_cons, List.any_cons]
    cases h : cols.contains c with
    | true => rfl
    | false => exact ih

theorem load_players_isOk (file : List (List (Option String))) :
    (load_players_normalize file).isOk = players_required_ok file := by
  unfold load_players_normalize players_required_ok
  simp only [players_required_cands, List.all_cons, List.all_nil,
    Bool.and_true]
  rw [← pick_isSome_eq_any, ← pick_isSome_eq_any, ← pick_isSome_eq_any,
    ← pick_isSome_eq_any, ← pick_isSome_eq_any, ← pick_isSome_eq_any]
  cases hp1 : pick ((players_frame file).cols.map normalizeName)
      ["player_id"] <;>
    cases hp2 : pick ((players_frame file).cols.map normalizeName)
      ["first_name", "name_first"] <;>
    cases hp3 : pick ((players_frame file).cols.map normalizeName)
      ["last_name", "name_last"] <;>
    cases hp4 : pick ((players_frame file).cols.map normalizeName)
      ["hand"] <;>
    cases hp5 : pick ((players_frame file).cols.map normalizeName)
      ["birth_date", "dob"] <;>
    cases hp6 : pick ((players_frame file).cols.map normalizeName)
      ["country_code", "ioc"] <;>
    simp [hp1, hp2, hp3, hp4, hp5, hp6, Except.isOk, Except.toBool]

/-- C9: a file whose minimum-required columns cannot all be resolved against
the canonical schema raises for the whole file before any storage write —
the target table is untouched — and conversely a file with every
minimum-required column resolvable does not raise at the normalization
stage; for both the TML match reader and the Sackmann players loader. -/
theorem claim_C9 (srcCols : List String) (t : Table MatchKey (List MVal))
    (df : List MatchRow) (file : List (List (Option String))) :
    ((read_file_check srcCols).isOk = read_file_resolvable srcCols) ∧
    (read_file_resolvable srcCols = false →
      process_tml_file t srcCols df = (t, ApplyStatus.failed)) ∧
    ((load_players_normalize file).isOk = players_required_ok file) := by
  refine ⟨read_file_check_isOk srcCols, ?_, load_players_isOk file⟩
  intro hres
  have hok := read_file_check_isOk srcCols
  rw [hres] at hok
  unfold process_tml_file
  cases hchk : read_file_check srcCols with
  | error e => rfl
  | ok u =>
    rw [hchk] at hok
    simp [Except.isOk, Except.toBool] at hok

/-- Witness for C9: a file with an unresolvable column is rejected whole
with the table unchanged. -/
theorem claim_C9_witness :
    read_file_resolvable ["tourney_id"] = false ∧
    process_tml_file ([] : Table MatchKey (List MVal)) ["tourney_id"]
      [⟨some "2023-580", some 20230116, some 1, []⟩] =
      ([], ApplyStatus.failed) :=
  ⟨by decide,
    (claim_C9 ["tourney_id"] [] [⟨some "2023-580", some 20230116, some 1, []⟩]
      []).2.1 (by decide)⟩

/-- C10: an empty batch is a no-op at the public interface: both the bulk
copy primitive and the match upsert return at once with no storage
operation, leaving the target table unchanged. -/
theorem claim_C10 :
    (∀ (R : Type) (ok : List R → List R → Bool) (t : List R),
      copy_df ok t [] = (t, ApplyStatus.skipped)) ∧
    (∀ t : Table MatchKey (List MVal),
      upsert_matches t [] = (t, ApplyStatus.skipped)) := by
  constructor
  · intro R ok t
    simp [copy_df]
  · intro t
    simp [upsert_matches]

end TennisETL
